import Mathlib

/-!
Verification of the tcbuilds dashboard (src/main.go, the channel-coalescing
version starting at the second package clause, whose line numbers the claims
cite).

The program is shallowly embedded:

* The typed records (buildType, build, file, project) are translated field by
  field from the Go structs; the anonymous Content struct of file is flattened
  into the single field it carries (ContentHRef), and the anonymous Agent
  struct of build into AgentName.  Go `int` fields that are only used as
  opaque identifiers are Int; the artifact Size is a byte count, non-negative
  upstream and in every claim, and is modelled as Nat.
* Upstream HTTP calls (getJSON and its callers) are modelled by an oracle
  structure Env: each endpoint becomes a function from the request parameters
  to an Option of the decoded response, none meaning the call failed
  (transport error, non-200 status, or JSON decode failure, which the code
  does not distinguish beyond the error message).
* The HTML template execution (tpl.Execute) is the out-of-scope page renderer:
  a pure total function Env.render from the aggregated project list to bytes.
* Rendered bytes are List Nat; a Go nil byte slice is Option.none.
-/

/-- Bytes of a rendered page (Go []byte); none models a nil slice. -/
abbrev Bytes := List Nat

/-- Go struct file (src/main.go lines 576-584); the anonymous Content struct
is flattened to ContentHRef.  Size is the artifact byte count (non-negative),
modelled as Nat. -/
structure file where
  Name : String := ""
  Size : Nat := 0
  ModificationTime : String := ""
  HRef : String := ""
  ContentHRef : String := ""
deriving DecidableEq, Inhabited

/-- Go struct build (src/main.go lines 546-564); the anonymous Agent struct is
flattened to AgentName. -/
structure build where
  ID : Int := 0
  BuildTypeID : String := ""
  Number : String := ""
  State : String := ""
  BranchName : String := ""
  DefaultBranch : Bool := false
  HRef : String := ""
  WebURL : String := ""
  StatusText : String := ""
  QueuedDate : String := ""
  StartDate : String := ""
  FinishDate : String := ""
  AgentName : String := ""
  Files : List file := []
deriving DecidableEq, Inhabited

/-- Go struct buildType (src/main.go lines 528-537). -/
structure buildType where
  ID : String := ""
  Name : String := ""
  ProjectName : String := ""
  ProjectID : String := ""
  HRef : String := ""
  WebURL : String := ""
  Build : build := {}
deriving DecidableEq, Inhabited

/-- Go struct project (src/main.go lines 505-508). -/
structure project where
  Name : String := ""
  Builds : List buildType := []
deriving DecidableEq, Inhabited

/-! ### Upstream client: getJSON (src/main.go lines 642-684)

getJSON has two pure aspects, translated here: the choice of the
authentication path segment (the switch at lines 643-651) and the decision
whether to attach basic-auth credentials (lines 659-664). -/

/-- Character-list core of Go strings.HasPrefix: the first list starts with
the second. -/
def listHasPre : List Char → List Char → Bool
  | _, [] => true
  | [], _ :: _ => false
  | a :: as, b :: bs => a = b && listHasPre as bs

/-- Go strings.HasPrefix(s, pre), on the character-list view of strings. -/
def strHasPre (s pre : String) : Bool :=
  listHasPre s.toList pre.toList

/-- The authPart chosen by the switch in getJSON (src/main.go lines 643-651):
a URL already carrying one of the two authentication path segments gets no
extra segment; otherwise a configured credential selects the authenticated
segment and an empty credential the guest segment. -/
def authPart (auth url : String) : String :=
  if strHasPre url "/guestAuth" then ""
  else if strHasPre url "/httpAuth" then ""
  else if auth ≠ "" then "/httpAuth"
  else "/guestAuth"

/-- The full request URL base+authPart+url built at src/main.go line 653. -/
def requestURL (base auth url : String) : String :=
  base ++ authPart auth url ++ url

/-- Go strings.Split for a single-character separator, on the character-list
view of the string: splits at every occurrence of the separator, keeping
empty fields, and yields one field even for the empty string (as Go does). -/
def splitList (sep : Char) : List Char → List (List Char)
  | [] => [[]]
  | c :: rest =>
    let r := splitList sep rest
    if c = sep then [] :: r
    else
      match r with
      | g :: gs => (c :: g) :: gs
      | [] => [[c]]

/-- Go strings.Split(s, sep) for the one-character separator used at
src/main.go line 660. -/
def stringsSplit (sep : Char) (s : String) : List String :=
  (splitList sep s.toList).map (fun cs => String.mk cs)

/-- The basic-auth credential getJSON attaches (src/main.go lines 659-664):
only when the configured auth string is non-empty and splits on the colon
into exactly two fields is SetBasicAuth called, with those two fields. -/
def basicAuthCred (auth : String) : Option (String × String) :=
  if auth = "" then none
  else
    match stringsSplit ':' auth with
    | [u, p] => some (u, p)
    | _ => none

/-! ### Artifact size formatting: file.SizeStr (src/main.go lines 586-598)

The Go method divides the int size by the float64 constants KiB = 2^10 and
MiB = 2^20 and renders the quotient with fmt's %.01f or %.02f.  An integer
below 2^53 is exact in float64 and a division by a power of two only changes
the exponent, so the float64 quotient is exactly the rational Size/2^10
(resp. Size/2^20), and fmt's fixed-precision rendering is exactly the decimal
rounding of that rational, rounding halves to the even last digit (Go's
strconv shouldRoundUp).  The model therefore computes the rounded scaled
value in exact Nat arithmetic. -/

/-- Rounding of the rational num/den to the nearest integer, halves to the
even neighbour; this is what fmt's fixed-precision formatting does to the
(here exact) float64 quotient. -/
def roundHalfEven (num den : Nat) : Nat :=
  let q := num / den
  let r := num % den
  if 2 * r < den then q
  else if den < 2 * r then q + 1
  else if q % 2 = 0 then q else q + 1

/-- Two-digit zero-padded decimal rendering of n < 100, as %.02f renders the
fractional part. -/
def pad2 (n : Nat) : String :=
  if n < 10 then "0" ++ toString n else toString n

/-- Go method file.SizeStr (src/main.go lines 586-598): sizes of at least one
binary megabyte are rendered as MiB with two decimals, smaller sizes as KiB
with one decimal. -/
def file.SizeStr (f : file) : String :=
  if f.Size ≥ 1048576 then
    let m := roundHalfEven (f.Size * 100) 1048576
    toString (m / 100) ++ "." ++ pad2 (m % 100) ++ " MiB"
  else
    let k := roundHalfEven (f.Size * 10) 1024
    toString (k / 10) ++ "." ++ toString (k % 10) ++ " KiB"

/-! ### Build completion timestamp: build.DateStr (src/main.go lines 566-569)

The Go method parses FinishDate with layout 20060102T150405-0700, IGNORES the
parse error (so a failed parse leaves the zero time, 1 January of year 1,
00:00:00 UTC), converts to UTC and formats with layout
2006-01-02 15:04:05 MST; after .UTC() the zone abbreviation is always UTC.

The layout is fixed-width: four year digits, two digits for month, day, hour,
minute and second, a literal T, a sign, and four zone digits (hhmm), with
nothing left over.  The model parses exactly that shape and applies the range
checks Go's time.Parse applies (month 1..12, day within the month, hour < 24,
minute < 60, second < 60); the zone digits are not range checked, as in Go. -/

/-- A parsed civil time with a zone offset in minutes. -/
structure CITime where
  year : Int := 1
  month : Int := 1
  day : Int := 1
  hour : Int := 0
  minute : Int := 0
  second : Int := 0
  offsetMinutes : Int := 0
deriving DecidableEq, Inhabited

/-- The zero Go time.Time: 1 January, year 1, 00:00:00 UTC. -/
def zeroTime : CITime := {}

/-- Decimal value of one ASCII digit, none for any other character. -/
def digitVal (c : Char) : Option Nat :=
  if c.isDigit then some (c.toNat - 48) else none

/-- Two-digit decimal field of the timestamp layout. -/
def num2 (a b : Char) : Option Nat := do
  let x ← digitVal a
  let y ← digitVal b
  pure (10 * x + y)

/-- Four-digit decimal field of the timestamp layout. -/
def num4 (a b c d : Char) : Option Nat := do
  let x ← num2 a b
  let y ← num2 c d
  pure (100 * x + y)

/-- Gregorian leap-year rule, as Go's time package applies it. -/
def isLeap (y : Int) : Bool :=
  y % 4 = 0 && (y % 100 ≠ 0 || y % 400 = 0)

/-- Length of a month, as Go's time.Parse uses to range check the day. -/
def daysInMonth (y m : Int) : Int :=
  if m = 2 then (if isLeap y then 29 else 28)
  else if m = 4 ∨ m = 6 ∨ m = 9 ∨ m = 11 then 30
  else 31

/-- Parse of the TeamCity timestamp layout 20060102T150405-0700
(src/main.go line 567): fixed-width fields, a literal T, a signed four-digit
zone, the whole string consumed, and Go's range checks on the date fields. -/
def parseCITime (s : String) : Option CITime :=
  match s.toList with
  | [y1, y2, y3, y4, mo1, mo2, d1, d2, tc, h1, h2, mi1, mi2, s1, s2, sg, z1, z2, z3, z4] => do
    let y ← num4 y1 y2 y3 y4
    let mo ← num2 mo1 mo2
    let d ← num2 d1 d2
    guard (tc = 'T')
    let h ← num2 h1 h2
    let mi ← num2 mi1 mi2
    let sec ← num2 s1 s2
    guard (sg = '+' ∨ sg = '-')
    let zh ← num2 z1 z2
    let zm ← num2 z3 z4
    guard (1 ≤ (mo : Int) ∧ (mo : Int) ≤ 12)
    guard (1 ≤ (d : Int) ∧ (d : Int) ≤ daysInMonth y mo)
    guard (h < 24)
    guard (mi < 60)
    guard (sec < 60)
    let off : Int := (zh : Int) * 60 + zm
    pure { year := y, month := mo, day := d, hour := h, minute := mi,
           second := sec, offsetMinutes := if sg = '-' then -off else off }
  | _ => none

/-- Days since the civil epoch 1970-01-01 of a Gregorian date (the standard
era-based conversion, with floor division so dates before the epoch work). -/
def daysFromCivil (y m d : Int) : Int :=
  let y := if m ≤ 2 then y - 1 else y
  let era := Int.fdiv y 400
  let yoe := y - era * 400
  let mp := Int.fmod (m + 9) 12
  let doy := Int.fdiv (153 * mp + 2) 5 + d - 1
  let doe := yoe * 365 + Int.fdiv yoe 4 - Int.fdiv yoe 100 + doy
  era * 146097 + doe - 719468

/-- Gregorian date of a day count since 1970-01-01 (inverse of
daysFromCivil). -/
def civilFromDays (z : Int) : Int × Int × Int :=
  let z := z + 719468
  let era := Int.fdiv z 146097
  let doe := z - era * 146097
  let yoe := Int.fdiv (doe - Int.fdiv doe 1460 + Int.fdiv doe 36524 - Int.fdiv doe 146096) 365
  let y := yoe + era * 400
  let doy := doe - (365 * yoe + Int.fdiv yoe 4 - Int.fdiv yoe 100)
  let mp := Int.fdiv (5 * doy + 2) 153
  let d := doy - Int.fdiv (153 * mp + 2) 5 + 1
  let m := mp + (if mp < 10 then 3 else -9)
  (if m ≤ 2 then y + 1 else y, m, d)

/-- Conversion of a parsed civil time with offset to the same instant in UTC
(what Go's Time.UTC performs before formatting). -/
def toUTC (t : CITime) : CITime :=
  let secs : Int :=
    daysFromCivil t.year t.month t.day * 86400
      + t.hour * 3600 + t.minute * 60 + t.second - t.offsetMinutes * 60
  let days := Int.fdiv secs 86400
  let rem := Int.fmod secs 86400
  let ymd := civilFromDays days
  { year := ymd.1, month := ymd.2.1, day := ymd.2.2,
    hour := Int.fdiv rem 3600, minute := Int.fdiv (Int.fmod rem 3600) 60,
    second := Int.fmod rem 60, offsetMinutes := 0 }

/-- Zero-padded decimal rendering of a field value to the given width (all
fields are non-negative in range; a negative value keeps its sign). -/
def padInt (width : Nat) (n : Int) : String :=
  let s := toString n.natAbs
  let s := Nat.repeat (fun t => if t.length < width then "0" ++ t else t) width s
  if n < 0 then "-" ++ s else s

/-- Rendering with Go layout 2006-01-02 15:04:05 MST of a UTC time; after
.UTC() the zone abbreviation is the literal UTC. -/
def formatUTCTime (t : CITime) : String :=
  padInt 4 t.year ++ "-" ++ padInt 2 t.month ++ "-" ++ padInt 2 t.day ++ " "
    ++ padInt 2 t.hour ++ ":" ++ padInt 2 t.minute ++ ":" ++ padInt 2 t.second
    ++ " UTC"

/-- Go method build.DateStr (src/main.go lines 566-569): parse FinishDate,
discard the error (zero time on failure), convert to UTC and format. -/
def build.DateStr (b : build) : String :=
  let d := (parseCITime b.FinishDate).getD zeroTime
  formatUTCTime (toUTC d)

/-! ### Cache coordinator: refresh coalescing (src/main.go lines 407-433)

refreshRequests is a buffered channel of capacity 1.  The trigger handler
refresh (lines 422-427) performs a select with a default case, so a send that
finds the buffer full is dropped and the caller is never blocked.  The worker
refreshLoop (lines 429-433) receives one request at a time and runs
refreshCache for it.  The model is the evident state machine: the buffered
channel is its occupancy count, a trigger is the non-blocking send, and a
work step is one loop iteration of the single worker. -/

/-- Capacity of the refreshRequests channel (src/main.go line 408). -/
def refreshRequestsCap : Nat := 1

/-- The non-blocking send in refresh (src/main.go lines 422-427): a total
function of the channel occupancy, leaving a full buffer unchanged (the
select hits its default case and the request is dropped). -/
def trySend (pending : Nat) : Nat :=
  if pending < refreshRequestsCap then pending + 1 else pending

/-- Observable coordinator state: how many requests sit in the channel buffer
and how many refreshCache executions have completed. -/
structure CoordState where
  pending : Nat := 0
  executed : Nat := 0
deriving DecidableEq, Inhabited

/-- An interleaving event: a trigger call, or one iteration of the worker
loop (which runs refreshCache when a request is available and otherwise
merely blocks on the empty channel, changing nothing). -/
inductive CoordEvent
  | trigger
  | work
deriving DecidableEq

/-- One step of the coordinator state machine. -/
def coordStep (s : CoordState) : CoordEvent → CoordState
  | .trigger => { s with pending := trySend s.pending }
  | .work =>
    if s.pending = 0 then s
    else { pending := s.pending - 1, executed := s.executed + 1 }

/-- Run of the coordinator over a sequence of events. -/
def coordRun (s : CoordState) (evs : List CoordEvent) : CoordState :=
  evs.foldl coordStep s

/-! ### Aggregator: getTpl and its fetches (src/main.go lines 453-503, 600-640)

The upstream server's answers are an oracle Env; each getJSON-backed call is
a function of its request parameters, none meaning the call returned an
error.  The renderer (tpl.Execute with the data map built at lines 492-496)
is the out-of-scope pure page transform, modelled as the total function
Env.render of the only varying datum, the project list. -/

/-- Oracle for one refresh cycle: configured branch, the upstream responses,
and the page renderer. -/
structure Env where
  branch : String
  buildTypesResp : Option (List buildType)
  buildsResp : String → String → Option (List build)
  buildDetailResp : String → Option build
  filesResp : Int → Option (List file)
  render : List project → Bytes

/-- Go function getBuildTypes (src/main.go lines 600-611): the configuration
listing fetch; a getJSON failure is wrapped into an error. -/
def getBuildTypes (env : Env) : Except String (List buildType) :=
  match env.buildTypesResp with
  | some ts => .ok ts
  | none => .error "get build types"

/-- Go function getLatestBuild (src/main.go lines 613-631): fetch the builds
of one configuration on the branch; any count other than exactly one is an
error (no build found), and then the full build record is re-fetched by its
self link.  All three failure modes collapse to none. -/
def getLatestBuild (env : Env) (buildTypeID branch : String) : Option build :=
  match env.buildsResp buildTypeID branch with
  | none => none
  | some builds =>
    match builds with
    | [b0] => env.buildDetailResp b0.HRef
    | _ => none

/-- Go function getFiles (src/main.go lines 633-640): the artifact listing of
a build. -/
def getFiles (env : Env) (buildID : Int) : Option (List file) :=
  env.filesResp buildID

/-- Go comparison function of the sort.Slice call at src/main.go lines
459-464: order by ProjectName, ties by Name. -/
def btLess (a b : buildType) : Bool :=
  if a.ProjectName ≠ b.ProjectName then decide (a.ProjectName < b.ProjectName)
  else decide (a.Name < b.Name)

/-- The non-strict total order induced by btLess; sorting by it is sorting by
the Go comparison (Go's sort leaves a, b in order exactly when not
btLess b a). -/
def btLe (a b : buildType) : Bool := ! btLess b a

/-- The sort.Slice call of getTpl (src/main.go lines 459-464).  Go's
sort.Slice promises any order in which no later element is btLess an earlier
one; mergeSort with btLe realises that contract. -/
def sortTypes (types : List buildType) : List buildType :=
  types.mergeSort btLe

/-- The per-configuration fetch-and-attach of the getTpl loop body
(src/main.go lines 477-488): resolve the latest build, then its artifact
files, attach both; none when either fetch fails and the configuration is
skipped. -/
def resolveBuild (env : Env) (bt : buildType) : Option buildType :=
  match getLatestBuild env bt.ID env.branch with
  | none => none
  | some b =>
    match getFiles env b.ID with
    | none => none
    | some files => some { bt with Build := { b with Files := files } }

/-- The project-creation step of the getTpl loop (src/main.go lines 470-475):
a configuration whose ProjectName has not been seen yet appends a fresh empty
project.  Go records the index in the projIdxs map; since project names in
projs are pairwise distinct, locating a project by name is the same thing. -/
def addProj (projs : List project) (pname : String) : List project :=
  if projs.any (fun p => p.Name == pname) then projs
  else projs ++ [{ Name := pname }]

/-- The append projs[idx].Builds = append(...) of the getTpl loop
(src/main.go line 489), with the target located by its (unique) name instead
of the stored index. -/
def appendBuild (projs : List project) (pname : String) (bt : buildType) : List project :=
  projs.map fun p => if p.Name == pname then { p with Builds := p.Builds ++ [bt] } else p

/-- One iteration of the getTpl loop (src/main.go lines 469-490). -/
def stepBT (env : Env) (projs : List project) (bt : buildType) : List project :=
  let projs1 := addProj projs bt.ProjectName
  match resolveBuild env bt with
  | none => projs1
  | some bt2 => appendBuild projs1 bt.ProjectName bt2

/-- The whole aggregation of getTpl (src/main.go lines 459-490): sort the
fetched configurations, then fold the loop body over them starting from the
empty project list. -/
def aggregate (env : Env) (types : List buildType) : List project :=
  (sortTypes types).foldl (stepBT env) []

/-- Go function getTpl (src/main.go lines 453-503): a configuration-listing
failure aborts the cycle with a wrapped error; otherwise the aggregated
project list is rendered to bytes. -/
def getTpl (env : Env) : Except String Bytes :=
  match getBuildTypes env with
  | .error e => .error ("getTpl: " ++ e)
  | .ok types => .ok (env.render (aggregate env types))

/-! ### Cache refresh: refreshCache (src/main.go lines 435-451)

refreshCache locks cacheMut for its whole body, calls getTpl, logs any error,
and then unconditionally assigns cacheData = bs.  Every error return of
getTpl returns a nil slice, so on failure the assignment publishes nil.  The
model is the function from the previous published value and the oracle to
the next published value. -/

/-- Go function refreshCache (src/main.go lines 435-451): the new published
cacheData.  The assignment at line 450 is unconditional, so the previous
value cacheData is never consulted: a getTpl failure publishes the nil slice
(after logging), and a success publishes the fresh bytes. -/
def refreshCache (env : Env) (cacheData : Option Bytes) : Option Bytes :=
  let _prev := cacheData
  match getTpl env with
  | .ok bs => some bs
  | .error _ => none

/-! ### Lock discipline of the read and refresh paths

The handler (src/main.go lines 413-420) and refreshCache (lines 435-451)
synchronise on the one mutex cacheMut.  To reason about what happens while
the lock is held, each function body is abstracted to its sequence of
relevant atomic actions, in source order: taking and releasing cacheMut,
reading or writing the cacheData reference, and running the whole getTpl
computation. -/

/-- The atomic actions the two cacheMut critical sections are built from. -/
inductive CacheAction
  | lock
  | unlock
  | compute
  | readRef
  | writeRef
deriving DecidableEq

/-- Action sequence of the handler (src/main.go lines 413-420): lock, read
the cacheData reference, unlock (the response write happens after the
unlock).  The handler performs no refresh computation. -/
def handlerActions : List CacheAction :=
  [.lock, .readRef, .unlock]

/-- Action sequence of refreshCache (src/main.go lines 435-451): lock (line
441), run getTpl (line 445), write the cacheData reference (line 450), and
unlock (the deferred mutex release). -/
def refreshCacheActions : List CacheAction :=
  [.lock, .compute, .writeRef, .unlock]

/-- Helper scanning an action sequence with the current cacheMut hold depth:
true when the target action is performed while the mutex is held. -/
def heldScan (depth : Nat) (target : CacheAction) : List CacheAction → Bool
  | [] => false
  | a :: rest =>
    let depth2 := match a with
      | .lock => depth + 1
      | .unlock => depth - 1
      | _ => depth
    (a == target && decide (0 < depth)) || heldScan depth2 target rest

/-- Whether an action sequence performs the target action while holding
cacheMut. -/
def heldDuringLock (target : CacheAction) (acts : List CacheAction) : Bool :=
  heldScan 0 target acts

/-! ### Derived views of the aggregation used to state its properties -/

/-- Names of the projects, in order. -/
def projNames (projs : List project) : List String :=
  projs.map project.Name

/-- The project carrying a given name (the lookup the projIdxs map performs
in the source). -/
def findProj (projs : List project) (n : String) : Option project :=
  projs.find? (fun p => p.Name == n)

/-- The builds the loop accumulates for one project name out of a
configuration list: the configurations of that project, in order, each
resolved against the oracle, failures skipped. -/
def newBuilds (env : Env) (ts : List buildType) (n : String) : List buildType :=
  (ts.filter (fun bt => bt.ProjectName == n)).filterMap (resolveBuild env)

/-- First occurrence order: the distinct elements of a list, each at the
position of its first occurrence. -/
def firstOccur : List String → List String
  | [] => []
  | n :: rest => n :: (firstOccur rest).filter (fun x => x != n)

/-! ### Concrete oracles and records used by the witnesses -/

/-- An oracle whose configuration-listing fetch fails (HTTP 500, say). -/
def failEnv : Env :=
  { branch := "master", buildTypesResp := none, buildsResp := fun _ _ => none,
    buildDetailResp := fun _ => none, filesResp := fun _ => none,
    render := fun _ => [] }

/-- A sample fetched configuration. -/
def bt0 : buildType := { ID := "t1", Name := "cfg", ProjectName := "Proj" }

/-- A sample build record. -/
def b0 : build := { ID := 7, HRef := "/b/7" }

/-- A sample artifact file. -/
def f0 : file := { Name := "a.bin", Size := 512 }

/-- The sample configuration with its resolved build and files attached. -/
def bt0res : buildType := { bt0 with Build := { b0 with Files := [f0] } }

/-- An oracle for which every fetch of the sample configuration succeeds. -/
def okEnv : Env :=
  { branch := "master", buildTypesResp := some [bt0],
    buildsResp := fun _ _ => some [b0],
    buildDetailResp := fun _ => some b0,
    filesResp := fun _ => some [f0],
    render := fun _ => [] }

/-- An oracle that lists the sample configuration but fails every build
lookup, so its project ends up with zero qualifying builds. -/
def noneEnv : Env :=
  { branch := "master", buildTypesResp := some [bt0],
    buildsResp := fun _ _ => none,
    buildDetailResp := fun _ => none,
    filesResp := fun _ => none,
    render := fun _ => [] }

/-- An oracle whose build listing returns two builds (an ambiguous lookup,
treated as not found). -/
def dupEnv : Env :=
  { branch := "master", buildTypesResp := some [bt0],
    buildsResp := fun _ _ => some [b0, b0],
    buildDetailResp := fun _ => some b0,
    filesResp := fun _ => some [f0],
    render := fun _ => [] }

/-! ### Theorems for the upstream client claims -/

/-- C7: for every request path, getJSON chooses the authentication segment as
follows: a path already starting with the guest or authenticated segment is
used verbatim with nothing prepended; otherwise a configured credential
selects /httpAuth and an empty credential selects /guestAuth. -/
theorem C7_authPart_selection (base auth url : String) :
    ((strHasPre url "/guestAuth" = true ∨ strHasPre url "/httpAuth" = true) →
      authPart auth url = "" ∧ requestURL base auth url = base ++ url)
    ∧ (strHasPre url "/guestAuth" = false → strHasPre url "/httpAuth" = false →
        auth ≠ "" → authPart auth url = "/httpAuth")
    ∧ (strHasPre url "/guestAuth" = false → strHasPre url "/httpAuth" = false →
        auth = "" → authPart auth url = "/guestAuth") := by
  refine ⟨fun h => ?_, fun h1 h2 h3 => ?_, fun h1 h2 h3 => ?_⟩
  · rcases h with h | h <;>
      simp [authPart, requestURL, h, String.append_assoc]
  · simp [authPart, h1, h2, h3]
  · simp [authPart, h1, h2, h3]

/-- Witness for C7 at concrete inputs: an already-prefixed path is used
verbatim, an unprefixed path gets /httpAuth when a credential is set and
/guestAuth when not. -/
theorem C7_witness :
    (authPart "u:p" "/guestAuth/app/rest/buildTypes" = ""
      ∧ requestURL "https://b" "u:p" "/guestAuth/app/rest/buildTypes"
          = "https://b" ++ "/guestAuth/app/rest/buildTypes")
    ∧ authPart "u:p" "/app/rest/buildTypes" = "/httpAuth"
    ∧ authPart "" "/app/rest/buildTypes" = "/guestAuth" :=
  ⟨(C7_authPart_selection "https://b" "u:p" "/guestAuth/app/rest/buildTypes").1
      (Or.inl (by decide)),
   (C7_authPart_selection "" "u:p" "/app/rest/buildTypes").2.1
      (by decide) (by decide) (by decide),
   (C7_authPart_selection "" "" "/app/rest/buildTypes").2.2
      (by decide) (by decide) rfl⟩

/-- C10: a non-empty credential that does not split on the colon into exactly
two fields still selects the authenticated /httpAuth segment for unprefixed
paths, but the request is sent without any basic-authentication credential. -/
theorem C10_malformed_auth_no_credential (auth url : String)
    (hne : auth ≠ "") (hlen : (stringsSplit ':' auth).length ≠ 2) :
    (strHasPre url "/guestAuth" = false → strHasPre url "/httpAuth" = false →
      authPart auth url = "/httpAuth")
    ∧ basicAuthCred auth = none := by
  constructor
  · intro h1 h2
    simp [authPart, h1, h2, hne]
  · unfold basicAuthCred
    rw [if_neg hne]
    rcases h : stringsSplit ':' auth with _ | ⟨u, _ | ⟨p, _ | _⟩⟩ <;>
      simp_all

/-- Witness for C10 at the colon-free credential user: /httpAuth is chosen
for an unprefixed path and no basic-auth credential is attached. -/
theorem C10_witness :
    "user" ≠ "" ∧ (stringsSplit ':' "user").length ≠ 2
    ∧ authPart "user" "/app/rest/buildTypes" = "/httpAuth"
    ∧ basicAuthCred "user" = none :=
  ⟨by decide, by decide,
   (C10_malformed_auth_no_credential "user" "/app/rest/buildTypes"
      (by decide) (by decide)).1 (by decide) (by decide),
   (C10_malformed_auth_no_credential "user" "/app/rest/buildTypes"
      (by decide) (by decide)).2⟩

/-! ### Theorems for the size and date formatting claims -/

/-- C8: every size below one binary megabyte is rendered in KiB with one
decimal and every size at or above it in MiB with two decimals; in
particular 512 bytes gives 0.5 KiB, 1048576 bytes gives 1.00 MiB and
1500000 bytes gives 1.43 MiB. -/
theorem C8_SizeStr_format (sz : Nat) :
    (sz < 1048576 → ∃ a b : Nat, b < 10 ∧
      file.SizeStr { Size := sz } = toString a ++ "." ++ toString b ++ " KiB")
    ∧ (1048576 ≤ sz → ∃ a b : Nat, b < 100 ∧
      file.SizeStr { Size := sz } = toString a ++ "." ++ pad2 b ++ " MiB")
    ∧ file.SizeStr { Size := 512 } = "0.5 KiB"
    ∧ file.SizeStr { Size := 1048576 } = "1.00 MiB"
    ∧ file.SizeStr { Size := 1500000 } = "1.43 MiB" := by
  refine ⟨fun h => ?_, fun h => ?_, by decide, by decide, by decide⟩
  · refine ⟨roundHalfEven (sz * 10) 1024 / 10, roundHalfEven (sz * 10) 1024 % 10,
      Nat.mod_lt _ (by norm_num), ?_⟩
    unfold file.SizeStr
    rw [if_neg (by simp; omega)]
  · refine ⟨roundHalfEven (sz * 100) 1048576 / 100, roundHalfEven (sz * 100) 1048576 % 100,
      Nat.mod_lt _ (by norm_num), ?_⟩
    unfold file.SizeStr
    rw [if_pos (by simpa using h)]

/-- Witness for C8 at 512 bytes (KiB branch) and 1500000 bytes (MiB
branch). -/
theorem C8_witness :
    (512 < 1048576 ∧ ∃ a b : Nat, b < 10 ∧
      file.SizeStr { Size := 512 } = toString a ++ "." ++ toString b ++ " KiB")
    ∧ (1048576 ≤ 1500000 ∧ ∃ a b : Nat, b < 100 ∧
      file.SizeStr { Size := 1500000 } = toString a ++ "." ++ pad2 b ++ " MiB") :=
  ⟨⟨by decide, (C8_SizeStr_format 512).1 (by decide)⟩,
   ⟨by decide, (C8_SizeStr_format 1500000).2.1 (by decide)⟩⟩

/-- C9: DateStr never reports an error; whenever FinishDate does not parse in
the TeamCity layout (the empty string included) it returns the formatted zero
time 0001-01-01 00:00:00 UTC instead of failing. -/
theorem C9_DateStr_total_default (b : build)
    (h : parseCITime b.FinishDate = none) :
    b.DateStr = "0001-01-01 00:00:00 UTC" := by
  unfold build.DateStr
  rw [h]
  decide

/-- Witness for C9 at a build whose FinishDate is empty. -/
theorem C9_witness :
    parseCITime ("" : String) = none
    ∧ build.DateStr { FinishDate := "" } = "0001-01-01 00:00:00 UTC" :=
  ⟨by decide, C9_DateStr_total_default { FinishDate := "" } (by decide)⟩

/-! ### Theorems for the coordinator claims -/

/-- Helper: a trigger arriving at a full pending slot is a no-op, for any
further burst length. -/
theorem coordRun_trigger_full (k e : Nat) :
    coordRun { pending := 1, executed := e } (List.replicate k .trigger)
      = { pending := 1, executed := e } := by
  induction k with
  | zero => rfl
  | succ k ih =>
    rw [List.replicate_succ]
    simpa [coordRun, coordStep, trySend, refreshRequestsCap] using ih

/-- Helper: the worker loop blocks on an empty pending slot and executes
nothing. -/
theorem coordRun_work_idle (k e : Nat) :
    coordRun { pending := 0, executed := e } (List.replicate k .work)
      = { pending := 0, executed := e } := by
  induction k with
  | zero => rfl
  | succ k ih =>
    rw [List.replicate_succ]
    simpa [coordRun, coordStep] using ih

/-- C2: the refresh trigger never blocks (it is a total function of the
pending slot that never grows it past capacity one), and a burst of N
triggers arriving while a refresh is in flight leaves exactly one pending
request, after which any amount of worker activity executes exactly one
additional refresh, not N. -/
theorem C2_refresh_trigger_coalescing (n m e : Nat) (hn : 1 ≤ n) :
    (coordRun { pending := 0, executed := e } (List.replicate n .trigger)).pending = 1
    ∧ (coordRun { pending := 0, executed := e } (List.replicate n .trigger)).executed = e
    ∧ (1 ≤ m →
        (coordRun { pending := 0, executed := e }
          (List.replicate n .trigger ++ List.replicate m .work)).executed = e + 1)
    ∧ (∀ p, p ≤ refreshRequestsCap → trySend p ≤ refreshRequestsCap) := by
  obtain ⟨k, rfl⟩ : ∃ k, n = k + 1 := ⟨n - 1, by omega⟩
  have hrun : coordRun { pending := 0, executed := e } (List.replicate (k + 1) .trigger)
      = { pending := 1, executed := e } := by
    rw [List.replicate_succ]
    show coordRun (coordStep { pending := 0, executed := e } .trigger)
        (List.replicate k .trigger) = _
    simpa [coordStep, trySend, refreshRequestsCap] using coordRun_trigger_full k e
  refine ⟨by rw [hrun], by rw [hrun], fun hm => ?_, fun p hp => ?_⟩
  · obtain ⟨j, rfl⟩ : ∃ j, m = j + 1 := ⟨m - 1, by omega⟩
    have hsplit : coordRun { pending := 0, executed := e }
          (List.replicate (k + 1) .trigger ++ List.replicate (j + 1) .work)
        = coordRun (coordRun { pending := 0, executed := e }
            (List.replicate (k + 1) .trigger)) (List.replicate (j + 1) .work) := by
      unfold coordRun
      exact List.foldl_append ..
    rw [hsplit, hrun, List.replicate_succ]
    show (coordRun (coordStep { pending := 1, executed := e } .work)
        (List.replicate j .work)).executed = e + 1
    rw [show coordStep { pending := 1, executed := e } .work
        = { pending := 0, executed := e + 1 } from rfl]
    rw [coordRun_work_idle]
  · simp only [trySend, refreshRequestsCap] at *
    split <;> omega

/-- Witness for C2: a burst of three triggers on an empty slot leaves one
pending request and two worker iterations execute exactly one refresh. -/
theorem C2_witness :
    (coordRun { pending := 0, executed := 5 } (List.replicate 3 .trigger)).pending = 1
    ∧ (coordRun { pending := 0, executed := 5 } (List.replicate 3 .trigger)).executed = 5
    ∧ (1 ≤ 2 →
        (coordRun { pending := 0, executed := 5 }
          (List.replicate 3 .trigger ++ List.replicate 2 .work)).executed = 5 + 1)
    ∧ (∀ p, p ≤ refreshRequestsCap → trySend p ≤ refreshRequestsCap) :=
  C2_refresh_trigger_coalescing 3 2 5 (by decide)

/-! ### Theorems for the cache publication claims -/

/-- C1 is wrong about the code: refreshCache assigns cacheData = bs
unconditionally (src/main.go line 450) and every error return of getTpl
carries a nil slice, so a refresh whose getTpl call fails replaces the
previously published bytes with nil instead of leaving them unchanged.
Evaluated here at a failing cycle over a previously published page. -/
theorem C1_refresh_failure_clears_cache :
    getTpl failEnv = .error "getTpl: get build types"
    ∧ refreshCache failEnv (some [104, 105]) = none
    ∧ refreshCache failEnv (some [104, 105]) ≠ some [104, 105] :=
  ⟨rfl, rfl, by simp [refreshCache, getTpl, getBuildTypes, failEnv]⟩

/-- C5 as stated is false: the mutex is not held only around the reference
read and write, since refreshCache runs the whole getTpl computation between
taking and releasing cacheMut. -/
theorem C5_counterexample_lock_held_around_compute :
    heldDuringLock .compute refreshCacheActions = true := by decide

/-- C5 amended: the handler performs no refresh computation itself and only
reads the published reference under the cacheMut lock, but refreshCache
holds that same lock across the whole getTpl computation, so a read arriving
during an in-flight refresh waits for the refresh to finish; the reference
write itself is also performed under the lock. -/
theorem C5_read_path_lock_discipline :
    heldDuringLock .readRef handlerActions = true
    ∧ handlerActions.contains .compute = false
    ∧ heldDuringLock .compute refreshCacheActions = true
    ∧ heldDuringLock .writeRef refreshCacheActions = true := by decide

/-! ### Properties of the sort comparison -/

/-- The Go comparison function holds exactly for lexicographically smaller
(ProjectName, Name) pairs. -/
theorem btLess_iff (a b : buildType) :
    btLess a b = true ↔
      (a.ProjectName < b.ProjectName
        ∨ (a.ProjectName = b.ProjectName ∧ a.Name < b.Name)) := by
  unfold btLess
  by_cases h : a.ProjectName = b.ProjectName
  · simp [h]
  · simp [h]

/-- The non-strict order btLe holds exactly for lexicographically
less-or-equal (ProjectName, Name) pairs. -/
theorem btLe_iff (a b : buildType) :
    btLe a b = true ↔
      (a.ProjectName ≤ b.ProjectName
        ∧ (b.ProjectName = a.ProjectName → a.Name ≤ b.Name)) := by
  constructor
  · intro h
    have hb : ¬ (btLess b a = true) := by
      cases hx : btLess b a
      · simp
      · simp [btLe, hx] at h
    rw [btLess_iff] at hb
    push_neg at hb
    exact ⟨le_of_not_lt hb.1, fun he => le_of_not_lt (hb.2 he)⟩
  · rintro ⟨h1, h2⟩
    have hb : ¬ (btLess b a = true) := by
      rw [btLess_iff]
      push_neg
      exact ⟨not_lt.mpr h1, fun he => not_lt.mpr (h2 he)⟩
    cases hx : btLess b a
    · simp [btLe, hx]
    · exact absurd hx hb

/-- btLe is transitive. -/
theorem btLe_trans (a b c : buildType)
    (hab : btLe a b = true) (hbc : btLe b c = true) : btLe a c = true := by
  rw [btLe_iff] at hab hbc ⊢
  obtain ⟨h1, h2⟩ := hab
  obtain ⟨h3, h4⟩ := hbc
  refine ⟨le_trans h1 h3, fun he => ?_⟩
  have hba : b.ProjectName = a.ProjectName := le_antisymm (he ▸ h3) h1
  have hcb : c.ProjectName = b.ProjectName := hba.symm ▸ he
  exact le_trans (h2 hba) (h4 hcb)

/-- btLe is total. -/
theorem btLe_total (a b : buildType) : (btLe a b || btLe b a) = true := by
  rw [Bool.or_eq_true, btLe_iff, btLe_iff]
  rcases lt_trichotomy a.ProjectName b.ProjectName with h | h | h
  · exact Or.inl ⟨le_of_lt h, fun he => absurd (he ▸ h) (lt_irrefl _)⟩
  · rcases le_total a.Name b.Name with hn | hn
    · exact Or.inl ⟨le_of_eq h, fun _ => hn⟩
    · exact Or.inr ⟨le_of_eq h.symm, fun _ => hn⟩
  · exact Or.inr ⟨le_of_lt h, fun he => absurd (he ▸ h) (lt_irrefl _)⟩

/-- The sorted configuration list is pairwise btLe. -/
theorem sortTypes_pairwise (ts : List buildType) :
    List.Pairwise (fun a b => btLe a b = true) (sortTypes ts) :=
  List.sorted_mergeSort btLe_trans btLe_total ts

/-- The sorted configuration list is a permutation of the input. -/
theorem sortTypes_perm (ts : List buildType) : (sortTypes ts).Perm ts :=
  List.mergeSort_perm ts btLe

/-! ### Properties of first-occurrence order -/

/-- firstOccur keeps a sublist of the input. -/
theorem firstOccur_sublist (l : List String) : (firstOccur l).Sublist l := by
  induction l with
  | nil => exact List.Sublist.refl []
  | cons n rest ih =>
    exact List.Sublist.cons₂ n ((List.filter_sublist (firstOccur rest)).trans ih)

/-- firstOccur has no duplicates. -/
theorem firstOccur_nodup (l : List String) : (firstOccur l).Nodup := by
  induction l with
  | nil => exact List.nodup_nil
  | cons n rest ih =>
    rw [firstOccur, List.nodup_cons]
    refine ⟨fun hmem => ?_, ih.filter _⟩
    have := (List.mem_filter.mp hmem).2
    simp at this

/-- firstOccur keeps exactly the elements of the input. -/
theorem mem_firstOccur (l : List String) (x : String) :
    x ∈ firstOccur l ↔ x ∈ l := by
  induction l with
  | nil => simp [firstOccur]
  | cons n rest ih =>
    rw [firstOccur]
    by_cases hx : x = n
    · subst hx
      simp
    · simp only [List.mem_cons, List.mem_filter, ih, bne_iff_ne, ne_eq]
      constructor
      · rintro (h | ⟨h, -⟩)
        · exact Or.inl h
        · exact Or.inr h
      · rintro (h | h)
        · exact Or.inl h
        · exact Or.inr ⟨h, hx⟩

/-- Appending one element to a list appends it to its first-occurrence order
exactly when it is new. -/
theorem firstOccur_append_singleton (l : List String) (n : String) :
    firstOccur (l ++ [n]) = firstOccur l ++ (if n ∈ l then [] else [n]) := by
  induction l with
  | nil => simp [firstOccur]
  | cons m rest ih =>
    rw [List.cons_append, firstOccur, firstOccur, ih, List.filter_append]
    by_cases hnm : n = m
    · subst hnm
      by_cases hn : n ∈ rest <;>
        simp [hn]
    · by_cases hn : n ∈ rest <;>
        simp [hn, List.mem_cons, hnm, bne_iff_ne, Ne.symm]

/-! ### Effect of the loop steps on names and lookups -/

/-- The any-test in addProj decides membership of a name. -/
theorem any_name_iff (projs : List project) (n : String) :
    (projs.any (fun p => p.Name == n)) = true ↔ n ∈ projNames projs := by
  simp [projNames, List.any_eq_true, List.mem_map]

/-- addProj appends exactly one name when it is new and nothing otherwise. -/
theorem projNames_addProj (projs : List project) (n : String) :
    projNames (addProj projs n)
      = if n ∈ projNames projs then projNames projs else projNames projs ++ [n] := by
  unfold addProj
  by_cases h : n ∈ projNames projs
  · rw [if_pos ((any_name_iff projs n).mpr h), if_pos h]
  · rw [if_neg (fun hc => h ((any_name_iff projs n).mp hc)), if_neg h]
    simp [projNames]

/-- appendBuild changes no project name. -/
theorem projNames_appendBuild (projs : List project) (n : String) (bt : buildType) :
    projNames (appendBuild projs n bt) = projNames projs := by
  induction projs with
  | nil => rfl
  | cons p ps ih =>
    unfold projNames appendBuild at *
    by_cases h : p.Name == n <;>
      simp_all

/-- One loop iteration appends the configuration's project name when new and
leaves the name list alone otherwise. -/
theorem projNames_stepBT (env : Env) (projs : List project) (bt : buildType) :
    projNames (stepBT env projs bt)
      = if bt.ProjectName ∈ projNames projs then projNames projs
        else projNames projs ++ [bt.ProjectName] := by
  unfold stepBT
  cases resolveBuild env bt with
  | none => exact projNames_addProj projs bt.ProjectName
  | some bt2 => rw [projNames_appendBuild, projNames_addProj]

/-- One loop iteration keeps the project names duplicate-free. -/
theorem nodup_stepBT (env : Env) (projs : List project) (bt : buildType)
    (h : (projNames projs).Nodup) : (projNames (stepBT env projs bt)).Nodup := by
  rw [projNames_stepBT]
  by_cases hm : bt.ProjectName ∈ projNames projs
  · rwa [if_pos hm]
  · rw [if_neg hm]
    simp [List.nodup_append, h, hm]

/-- A successful lookup returns a member carrying the looked-up name. -/
theorem findProj_eq_some (projs : List project) (n : String) (p : project)
    (h : findProj projs n = some p) : p ∈ projs ∧ p.Name = n := by
  refine ⟨List.mem_of_find?_eq_some h, ?_⟩
  have := List.find?_some h
  simpa using this

/-- Lookup in a one-element extension. -/
theorem findProj_append_one (projs : List project) (q : project) (n : String) :
    findProj (projs ++ [q]) n
      = match findProj projs n with
        | some p => some p
        | none => if q.Name == n then some q else none := by
  induction projs with
  | nil =>
    cases h : q.Name == n <;>
      simp [findProj, List.find?, h]
  | cons p ps ih =>
    unfold findProj at ih ⊢
    rw [List.cons_append]
    simp only [List.find?_cons]
    cases h : p.Name == n
    · exact ih
    · rfl

/-- Lookup through a map whose function preserves names. -/
theorem findProj_map (projs : List project) (f : project → project)
    (hf : ∀ p, (f p).Name = p.Name) (m : String) :
    findProj (projs.map f) m = (findProj projs m).map f := by
  induction projs with
  | nil => rfl
  | cons p ps ih =>
    unfold findProj at ih ⊢
    simp only [List.map_cons, List.find?_cons]
    rw [hf p]
    cases h : p.Name == m
    · exact ih
    · rfl

/-- The mapping function of appendBuild preserves names. -/
theorem appendBuild_fun_name (n : String) (bt : buildType) (p : project) :
    ((if p.Name == n then { p with Builds := p.Builds ++ [bt] } else p) : project).Name
      = p.Name := by
  by_cases h : p.Name == n <;>
    simp [h]

/-- Lookup of the appended-to name after appendBuild. -/
theorem findProj_appendBuild_self (projs : List project) (n : String) (bt : buildType) :
    findProj (appendBuild projs n bt) n
      = (findProj projs n).map (fun p => { p with Builds := p.Builds ++ [bt] }) := by
  unfold appendBuild
  rw [findProj_map projs _ (appendBuild_fun_name n bt) n]
  cases hf : findProj projs n with
  | none => rfl
  | some p =>
    have hp := (findProj_eq_some projs n p hf).2
    simp [hp]

/-- Lookup of any other name is unchanged by appendBuild. -/
theorem findProj_appendBuild_ne (projs : List project) (n m : String) (bt : buildType)
    (hmn : m ≠ n) :
    findProj (appendBuild projs n bt) m = findProj projs m := by
  unfold appendBuild
  rw [findProj_map projs _ (appendBuild_fun_name n bt) m]
  cases hf : findProj projs m with
  | none => rfl
  | some p =>
    have hp := (findProj_eq_some projs m p hf).2
    have hne : ¬ (p.Name = n) := by
      rw [hp]
      exact hmn
    simp [hne]

/-- A failed lookup means the name is absent. -/
theorem findProj_eq_none_iff (projs : List project) (n : String) :
    findProj projs n = none ↔ n ∉ projNames projs := by
  rw [findProj, List.find?_eq_none]
  simp [projNames, List.mem_map]

/-- With duplicate-free names, lookup of a member's name finds the member. -/
theorem findProj_mem_nodup (projs : List project) (p : project)
    (hnd : (projNames projs).Nodup) (hp : p ∈ projs) :
    findProj projs p.Name = some p := by
  induction projs with
  | nil => cases hp
  | cons q ps ih =>
    rw [projNames, List.map_cons, List.nodup_cons] at hnd
    rcases List.mem_cons.mp hp with rfl | hmem
    · simp [findProj, List.find?]
    · have hne : (q.Name == p.Name) = false := by
        simp only [beq_eq_false_iff_ne, ne_eq]
        intro he
        exact hnd.1 (he ▸ List.mem_map_of_mem project.Name hmem)
      simp only [findProj, List.find?, hne]
      exact ih hnd.2 hmem

/-- Lookup of the configuration's own project name after one loop step. -/
theorem findProj_addProj_self (projs : List project) (m : String) :
    findProj (addProj projs m) m = some ((findProj projs m).getD { Name := m }) := by
  unfold addProj
  cases hf : findProj projs m with
  | some p =>
    have hmem : m ∈ projNames projs := by
      have := findProj_eq_some projs m p hf
      exact this.2 ▸ List.mem_map_of_mem project.Name this.1
    rw [if_pos ((any_name_iff projs m).mpr hmem)]
    simp [hf]
  | none =>
    have hmem := (findProj_eq_none_iff projs m).mp hf
    rw [if_neg (fun hc => hmem ((any_name_iff projs m).mp hc))]
    rw [findProj_append_one, hf]
    simp

/-- Lookup of any other name is unchanged by addProj. -/
theorem findProj_addProj_ne (projs : List project) (m n : String) (hnm : n ≠ m) :
    findProj (addProj projs m) n = findProj projs n := by
  unfold addProj
  cases hc : projs.any (fun p => p.Name == m)
  · simp only [Bool.false_eq_true, if_false]
    rw [findProj_append_one]
    cases hf : findProj projs n
    · simp [Ne.symm hnm]
    · simp
  · simp

/-! ### Resolution preserves the identifying fields -/

/-- A resolved configuration keeps its ProjectName and Name (only the Build
field is filled in). -/
theorem resolveBuild_fields (env : Env) (bt bt2 : buildType)
    (h : resolveBuild env bt = some bt2) :
    bt2.ProjectName = bt.ProjectName ∧ bt2.Name = bt.Name := by
  unfold resolveBuild at h
  cases h1 : getLatestBuild env bt.ID env.branch with
  | none =>
    simp only [h1] at h
    cases h
  | some b =>
    simp only [h1] at h
    cases h2 : getFiles env b.ID with
    | none =>
      simp only [h2] at h
      cases h
    | some files =>
      simp only [h2] at h
      cases h
      exact ⟨rfl, rfl⟩

/-- newBuilds over an empty configuration list is empty. -/
theorem newBuilds_nil (env : Env) (n : String) : newBuilds env [] n = [] := rfl

/-- newBuilds over a configuration of another project ignores it. -/
theorem newBuilds_cons_ne (env : Env) (bt : buildType) (ts : List buildType)
    (n : String) (h : bt.ProjectName ≠ n) :
    newBuilds env (bt :: ts) n = newBuilds env ts n := by
  unfold newBuilds
  rw [List.filter_cons]
  simp [h]

/-- newBuilds over a configuration of the project keeps its resolution when
it succeeds and skips it when it fails. -/
theorem newBuilds_cons_self (env : Env) (bt : buildType) (ts : List buildType) :
    newBuilds env (bt :: ts) bt.ProjectName
      = match resolveBuild env bt with
        | none => newBuilds env ts bt.ProjectName
        | some bt2 => bt2 :: newBuilds env ts bt.ProjectName := by
  unfold newBuilds
  rw [List.filter_cons]
  simp only [beq_self_eq_true, if_true, List.filterMap_cons]
  cases resolveBuild env bt <;> rfl

/-! ### The two characterizations of the aggregation fold -/

/-- Project names after folding the loop over a configuration list: the
original names followed by the first occurrences of the new project names. -/
theorem projNames_foldl (env : Env) :
    ∀ (ts : List buildType) (projs : List project),
    projNames (ts.foldl (stepBT env) projs)
      = projNames projs
        ++ (firstOccur (ts.map buildType.ProjectName)).filter
            (fun n => decide (n ∉ projNames projs)) := by
  intro ts
  induction ts with
  | nil =>
    intro projs
    simp [firstOccur]
  | cons bt ts ih =>
    intro projs
    rw [List.foldl_cons, ih (stepBT env projs bt), projNames_stepBT]
    rw [List.map_cons, firstOccur, List.filter_cons]
    by_cases hm : bt.ProjectName ∈ projNames projs
    · rw [if_pos hm]
      have hcond : (decide (bt.ProjectName ∉ projNames projs)) = false := by
        simp [hm]
      rw [hcond]
      simp only [Bool.false_eq_true, if_false]
      have hfil : (firstOccur (ts.map buildType.ProjectName)).filter
            (fun n => decide (n ∉ projNames projs))
          = ((firstOccur (ts.map buildType.ProjectName)).filter
              (fun x => x != bt.ProjectName)).filter
            (fun n => decide (n ∉ projNames projs)) := by
        rw [List.filter_filter]
        apply List.filter_congr
        intro x hx
        by_cases hxp : x ∈ projNames projs
        · simp [hxp]
        · have hxm : x ≠ bt.ProjectName := fun he => hxp (he ▸ hm)
          simp [hxp, hxm]
      rw [← hfil]
    · rw [if_neg hm]
      have hcond : (decide (bt.ProjectName ∉ projNames projs)) = true := by
        simp [hm]
      rw [hcond]
      simp only [if_true]
      have hfil : (firstOccur (ts.map buildType.ProjectName)).filter
            (fun n => decide (n ∉ projNames projs ++ [bt.ProjectName]))
          = ((firstOccur (ts.map buildType.ProjectName)).filter
              (fun x => x != bt.ProjectName)).filter
            (fun n => decide (n ∉ projNames projs)) := by
        rw [List.filter_filter]
        apply List.filter_congr
        intro x hx
        by_cases h1 : x = bt.ProjectName
        · simp [h1, List.mem_append]
        · by_cases h2 : x ∈ projNames projs <;>
            simp [h1, h2, List.mem_append]
      rw [hfil]
      simp [List.append_assoc]

/-- Lookup of another project name after one loop step. -/
theorem findProj_stepBT_ne (env : Env) (projs : List project) (bt : buildType)
    (n : String) (h : n ≠ bt.ProjectName) :
    findProj (stepBT env projs bt) n = findProj projs n := by
  unfold stepBT
  cases resolveBuild env bt with
  | none => exact findProj_addProj_ne projs bt.ProjectName n h
  | some bt2 =>
    rw [findProj_appendBuild_ne _ _ _ _ h]
    exact findProj_addProj_ne projs bt.ProjectName n h

/-- Lookup of the processed configuration's project name after one loop
step: the project exists afterwards, carrying its old builds plus the
resolved configuration when resolution succeeded. -/
theorem findProj_stepBT_self (env : Env) (projs : List project) (bt : buildType) :
    findProj (stepBT env projs bt) bt.ProjectName
      = some (match resolveBuild env bt with
          | none => (findProj projs bt.ProjectName).getD { Name := bt.ProjectName }
          | some bt2 =>
            let p := (findProj projs bt.ProjectName).getD { Name := bt.ProjectName }
            { p with Builds := p.Builds ++ [bt2] }) := by
  unfold stepBT
  cases resolveBuild env bt with
  | none => exact findProj_addProj_self projs bt.ProjectName
  | some bt2 =>
    rw [findProj_appendBuild_self, findProj_addProj_self]
    rfl

/-- Lookup after folding the loop over a configuration list: an existing
project gains exactly the new builds of its name; a new name yields a fresh
project carrying exactly those builds; any other name stays absent. -/
theorem findProj_foldl (env : Env) :
    ∀ (ts : List buildType) (projs : List project),
    (projNames projs).Nodup → ∀ n,
    findProj (ts.foldl (stepBT env) projs) n
      = match findProj projs n with
        | some p => some { p with Builds := p.Builds ++ newBuilds env ts n }
        | none =>
          if n ∈ ts.map buildType.ProjectName
          then some { Name := n, Builds := newBuilds env ts n }
          else none := by
  intro ts
  induction ts with
  | nil =>
    intro projs hnd n
    rw [List.foldl_nil, newBuilds_nil]
    cases hf : findProj projs n with
    | none => simp
    | some p => simp
  | cons bt ts ih =>
    intro projs hnd n
    rw [List.foldl_cons, ih (stepBT env projs bt) (nodup_stepBT env projs bt hnd) n]
    by_cases hn : n = bt.ProjectName
    · subst hn
      rw [findProj_stepBT_self, newBuilds_cons_self]
      cases hr : resolveBuild env bt with
      | none =>
        cases hf : findProj projs bt.ProjectName with
        | none => simp [hf]
        | some p => simp [hf]
      | some bt2 =>
        cases hf : findProj projs bt.ProjectName with
        | none => simp [hf]
        | some p => simp [hf, List.append_assoc]
    · rw [findProj_stepBT_ne env projs bt n hn,
        newBuilds_cons_ne env bt ts n (fun he => hn he.symm)]
      cases hf : findProj projs n with
      | none =>
        simp [List.map_cons, hn]
      | some p =>
        simp

/-! ### The aggregation as a whole -/

/-- Project names of the aggregation: first-occurrence order of the sorted
configurations' project names. -/
theorem aggregate_projNames (env : Env) (ts : List buildType) :
    projNames (aggregate env ts)
      = firstOccur ((sortTypes ts).map buildType.ProjectName) := by
  unfold aggregate
  rw [projNames_foldl]
  simp [projNames]

/-- Lookup into the aggregation: every project name seen among the sorted
configurations yields a project carrying exactly the new builds of that
name; nothing else exists. -/
theorem aggregate_findProj (env : Env) (ts : List buildType) (n : String) :
    findProj (aggregate env ts) n
      = if n ∈ (sortTypes ts).map buildType.ProjectName
        then some { Name := n, Builds := newBuilds env (sortTypes ts) n }
        else none := by
  unfold aggregate
  rw [findProj_foldl env (sortTypes ts) [] (by simp [projNames]) n]
  rfl

/-- The aggregation's project names are duplicate-free. -/
theorem aggregate_names_nodup (env : Env) (ts : List buildType) :
    (projNames (aggregate env ts)).Nodup := by
  rw [aggregate_projNames]
  exact firstOccur_nodup _

/-- Every member project of the aggregation carries exactly the new builds
of its name. -/
theorem mem_aggregate_builds (env : Env) (ts : List buildType) (p : project)
    (hp : p ∈ aggregate env ts) :
    p.Builds = newBuilds env (sortTypes ts) p.Name := by
  have hf := findProj_mem_nodup (aggregate env ts) p (aggregate_names_nodup env ts) hp
  rw [aggregate_findProj] at hf
  by_cases hm : p.Name ∈ (sortTypes ts).map buildType.ProjectName
  · rw [if_pos hm] at hf
    have := Option.some.inj hf
    rw [← this]
  · rw [if_neg hm] at hf
    cases hf

/-- The sorted configurations' project names are pairwise nondecreasing. -/
theorem sortTypes_projNames_pairwise (ts : List buildType) :
    List.Pairwise (· ≤ ·) ((sortTypes ts).map buildType.ProjectName) := by
  rw [List.pairwise_map]
  exact (sortTypes_pairwise ts).imp (fun h => ((btLe_iff _ _).mp h).1)

/-- First-occurrence order of a nondecreasing list is strictly increasing. -/
theorem firstOccur_sorted_lt (l : List String) (h : List.Pairwise (· ≤ ·) l) :
    List.Pairwise (· < ·) (firstOccur l) := by
  have hle : List.Pairwise (· ≤ ·) (firstOccur l) := h.sublist (firstOccur_sublist l)
  have hnd : List.Pairwise (· ≠ ·) (firstOccur l) := firstOccur_nodup l
  exact (hle.and hnd).imp (fun hab => lt_of_le_of_ne hab.1 hab.2)

/-- Within one project, the accumulated builds' configuration names are
nondecreasing: they come from the lexicographically sorted list, restricted
to one project name, and resolution keeps the Name field. -/
theorem newBuilds_names_sorted (env : Env) (ts : List buildType) (n : String) :
    List.Pairwise (· ≤ ·) ((newBuilds env (sortTypes ts) n).map buildType.Name) := by
  unfold newBuilds
  have h1 : List.Pairwise (fun a b : buildType => btLe a b = true)
      ((sortTypes ts).filter (fun bt => bt.ProjectName == n)) :=
    (sortTypes_pairwise ts).filter _
  have h2 : List.Pairwise (fun a b : buildType => a.Name ≤ b.Name)
      ((sortTypes ts).filter (fun bt => bt.ProjectName == n)) := by
    refine List.Pairwise.imp_of_mem ?_ h1
    intro a b ha hb hab
    have hpa : a.ProjectName = n := by simpa using (List.mem_filter.mp ha).2
    have hpb : b.ProjectName = n := by simpa using (List.mem_filter.mp hb).2
    exact ((btLe_iff a b).mp hab).2 (by rw [hpa, hpb])
  rw [List.pairwise_map]
  rw [List.pairwise_filterMap]
  refine h2.imp ?_
  intro a b hab x hx y hy
  rw [(resolveBuild_fields env a x (by simpa using hx)).2,
    (resolveBuild_fields env b y (by simpa using hy)).2]
  exact hab

/-- C3: the Aggregator's output is grouped and ordered by the sorted
(ProjectName, Name) order: the project list is in first-occurrence order of
the sorted configurations' project names (hence strictly sorted by name),
every configuration sits in the project of its ProjectName, and within each
project the configurations appear in nondecreasing Name order. -/
theorem C3_aggregate_sorted_grouping (env : Env) (ts : List buildType) :
    projNames (aggregate env ts)
        = firstOccur ((sortTypes ts).map buildType.ProjectName)
    ∧ List.Pairwise (· < ·) (projNames (aggregate env ts))
    ∧ ∀ p ∈ aggregate env ts,
        (∀ bt ∈ p.Builds, bt.ProjectName = p.Name)
        ∧ List.Pairwise (· ≤ ·) (p.Builds.map buildType.Name) := by
  refine ⟨aggregate_projNames env ts, ?_, ?_⟩
  · rw [aggregate_projNames]
    exact firstOccur_sorted_lt _ (sortTypes_projNames_pairwise ts)
  · intro p hp
    have hb := mem_aggregate_builds env ts p hp
    constructor
    · intro bt hbt
      rw [hb] at hbt
      unfold newBuilds at hbt
      obtain ⟨a, ha, har⟩ := List.mem_filterMap.mp hbt
      have hpa : a.ProjectName = p.Name := by simpa using (List.mem_filter.mp ha).2
      rw [(resolveBuild_fields env a bt har).1, hpa]
    · rw [hb]
      exact newBuilds_names_sorted env ts p.Name

/-- Evaluation of the sort on a one-element list. -/
theorem sortTypes_singleton (bt : buildType) : sortTypes [bt] = [bt] :=
  List.perm_singleton.mp (sortTypes_perm [bt])

/-- Evaluation of the aggregation over the sample configuration when every
build lookup fails: the project appears with zero builds. -/
theorem aggregate_noneEnv_eval :
    aggregate noneEnv [bt0] = [{ Name := "Proj" }] := by
  unfold aggregate
  rw [sortTypes_singleton]
  rfl

/-- Witness for C3 at a concrete cycle in which the build lookup fails: the
lone project is in the output (with zero builds), trivially grouped and
ordered. -/
theorem C3_witness :
    ({ Name := "Proj" } : project) ∈ aggregate noneEnv [bt0]
    ∧ (∀ bt ∈ ({ Name := "Proj" } : project).Builds,
        bt.ProjectName = ({ Name := "Proj" } : project).Name)
    ∧ List.Pairwise (· ≤ ·)
        (({ Name := "Proj" } : project).Builds.map buildType.Name) :=
  have hp : ({ Name := "Proj" } : project) ∈ aggregate noneEnv [bt0] := by
    rw [aggregate_noneEnv_eval]
    exact List.mem_singleton.mpr rfl
  ⟨hp, (C3_aggregate_sorted_grouping noneEnv [bt0]).2.2 _ hp⟩

/-- C6: the Aggregator's project list contains every project name seen among
the fetched configurations, whatever the build and artifact fetches return
(so projects with zero qualifying builds included), and no others; dropping
empty projects happens only in the out-of-scope renderer. -/
theorem C6_every_project_listed (env : Env) (ts : List buildType)
    (bt : buildType) (h : bt ∈ ts) :
    bt.ProjectName ∈ projNames (aggregate env ts)
    ∧ ∀ p ∈ aggregate env ts, p.Name ∈ ts.map buildType.ProjectName := by
  constructor
  · rw [aggregate_projNames, mem_firstOccur]
    exact List.mem_map_of_mem buildType.ProjectName ((sortTypes_perm ts).mem_iff.mpr h)
  · intro p hp
    have hmem : p.Name ∈ projNames (aggregate env ts) :=
      List.mem_map_of_mem project.Name hp
    rw [aggregate_projNames, mem_firstOccur] at hmem
    exact ((sortTypes_perm ts).map buildType.ProjectName).mem_iff.mp hmem

/-- Witness for C6 at the concrete cycle in which every build lookup fails:
the configuration's project is listed even though it has zero builds. -/
theorem C6_witness :
    bt0 ∈ [bt0]
    ∧ (bt0.ProjectName ∈ projNames (aggregate noneEnv [bt0])
       ∧ ∀ p ∈ aggregate noneEnv [bt0],
           p.Name ∈ [bt0].map buildType.ProjectName) :=
  ⟨List.mem_singleton.mpr rfl,
   C6_every_project_listed noneEnv [bt0] bt0 (List.mem_singleton.mpr rfl)⟩

/-- C4: per-configuration failure policy of one cycle: a build listing with
zero or several entries resolves to not-found; the cycle aborts exactly when
the configuration-listing fetch fails; and every build present in the output
comes from a configuration whose resolution (build lookup, detail re-fetch
and artifact fetch) fully succeeded, so a configuration with any of those
failures contributes nothing and aborts nothing. -/
theorem C4_per_configuration_failure_policy (env : Env) :
    (∀ tid br builds, env.buildsResp tid br = some builds → builds.length ≠ 1 →
        getLatestBuild env tid br = none)
    ∧ ((∃ e, getTpl env = .error e) ↔ env.buildTypesResp = none)
    ∧ (∀ ts, env.buildTypesResp = some ts →
        ∀ p ∈ aggregate env ts, ∀ b ∈ p.Builds,
          ∃ bt ∈ ts, resolveBuild env bt = some b) := by
  refine ⟨?_, ?_, ?_⟩
  · intro tid br builds h hlen
    unfold getLatestBuild
    rw [h]
    match builds, hlen with
    | [], _ => rfl
    | [b1], hlen => exact absurd rfl hlen
    | b1 :: b2 :: rest, _ => rfl
  · cases henv : env.buildTypesResp with
    | none => simp [getTpl, getBuildTypes, henv]
    | some ts => simp [getTpl, getBuildTypes, henv]
  · intro ts hts p hp b hbb
    have hb := mem_aggregate_builds env ts p hp
    rw [hb] at hbb
    unfold newBuilds at hbb
    obtain ⟨a, ha, har⟩ := List.mem_filterMap.mp hbb
    exact ⟨a, (sortTypes_perm ts).mem_iff.mp (List.mem_of_mem_filter ha), har⟩

/-- Evaluation of the aggregation over the sample configuration when every
fetch succeeds. -/
theorem aggregate_okEnv_eval :
    aggregate okEnv [bt0] = [{ Name := "Proj", Builds := [bt0res] }] := by
  unfold aggregate
  rw [sortTypes_singleton]
  rfl

/-- Witness for C4: an ambiguous (two-entry) build listing resolves to
not-found, and under the all-successful oracle the lone output build indeed
comes from a fully resolved configuration. -/
theorem C4_witness :
    getLatestBuild dupEnv "t1" "master" = none
    ∧ ∃ bt ∈ [bt0], resolveBuild okEnv bt = some bt0res :=
  have hp : ({ Name := "Proj", Builds := [bt0res] } : project)
      ∈ aggregate okEnv [bt0] := by
    rw [aggregate_okEnv_eval]
    exact List.mem_singleton.mpr rfl
  ⟨(C4_per_configuration_failure_policy dupEnv).1 "t1" "master" [b0, b0] rfl
      (by decide),
   (C4_per_configuration_failure_policy okEnv).2.2 [bt0] rfl _ hp bt0res
      (List.mem_singleton.mpr rfl)⟩
